import Mathlib

/-!
Verification of the shebang-patching tool (`src/main.rs`).

The embedding models strings as Lean `String`s (lists of characters),
the filesystem as the sets of existing regular files and directories,
and a target file as its textual content plus a modification time.
All definitions mirror the Rust source function by function:
`which_in_path`, `process_file` (split into parsing, `buildNewLine`
and the rewrite decision) and the traversal filter of
`patch_shebangs_in_path`.
-/

namespace PatchShebangs

/-! ### Character-list helpers mirroring the Rust standard string operations -/

/-- The first line of a character list, including the terminating newline when
present: the model of `BufRead::read_line` reading one line. -/
def listTakeLine : List Char → List Char
  | [] => []
  | c :: cs => if c = '\n' then [c] else c :: listTakeLine cs

/-- Everything after the first line (after the first newline, if any). -/
def listDropLine : List Char → List Char
  | [] => []
  | c :: cs => if c = '\n' then cs else listDropLine cs

/-- Remove trailing whitespace, the model of Rust `str::trim_end`. -/
def listTrimRight (l : List Char) : List Char :=
  (l.reverse.dropWhile Char.isWhitespace).reverse

/-- Remove leading and trailing whitespace, the model of Rust `str::trim`. -/
def listTrim (l : List Char) : List Char :=
  listTrimRight (l.dropWhile Char.isWhitespace)

/-- Split into maximal whitespace-free words, the model of
`str::split_whitespace` (the accumulator holds the current word reversed). -/
def wordsAux : List Char → List Char → List String
  | [], acc => if acc = [] then [] else [⟨acc.reverse⟩]
  | c :: cs, acc =>
    if c.isWhitespace then
      if acc = [] then wordsAux cs [] else ⟨acc.reverse⟩ :: wordsAux cs []
    else
      wordsAux cs (c :: acc)

/-- Repeatedly strip a leading `#!`, the model of
`str::trim_start_matches("#!")`. -/
def dropShebangMarks : List Char → List Char
  | '#' :: '!' :: rest => dropShebangMarks rest
  | l => l

/-- Replace the first (leftmost) literal occurrence of `pat` by `sub`,
the model of Rust `String::replacen(pat, sub, 1)`. -/
def listReplaceFirst : List Char → List Char → List Char → List Char
  | [], pat, sub => if pat.isPrefixOf [] then sub else []
  | c :: cs, pat, sub =>
    if pat.isPrefixOf (c :: cs) then sub ++ (c :: cs).drop pat.length
    else c :: listReplaceFirst cs pat sub

/-! ### String-level wrappers -/

/-- The first line of a file's content (with its newline, when present). -/
def firstLine (s : String) : String := ⟨listTakeLine s.data⟩

def strTrimRight (s : String) : String := ⟨listTrimRight s.data⟩

def strTrim (s : String) : String := ⟨listTrim s.data⟩

def strStartsWith (s pre : String) : Bool := pre.data.isPrefixOf s.data

def strEndsWith (s suf : String) : Bool := suf.data.isSuffixOf s.data

def splitWhitespace (s : String) : List String := wordsAux s.data []

def strDropShebangMarks (s : String) : String := ⟨dropShebangMarks s.data⟩

def replacen1 (s pat sub : String) : String :=
  ⟨listReplaceFirst s.data pat.data sub.data⟩

/-- `args.join(" ")`: words joined by single spaces. -/
def joinSpace : List String → String
  | [] => ""
  | [x] => x
  | x :: y :: xs => x ++ " " ++ joinSpace (y :: xs)

/-! ### Paths -/

/-- The model of Rust `Path::join` (`dir.join(prog)`): an absolute `prog`
replaces `dir`; otherwise the two are concatenated with a separator. -/
def rustJoin (dir prog : String) : String :=
  if strStartsWith prog "/" then prog
  else if dir = "" then prog
  else if strEndsWith dir "/" then dir ++ prog
  else dir ++ "/" ++ prog

/-- Split on `/`, the helper for `fileName`. -/
def splitSlashAux : List Char → List Char → List String
  | [], acc => [⟨acc.reverse⟩]
  | c :: cs, acc =>
    if c = '/' then ⟨acc.reverse⟩ :: splitSlashAux cs []
    else splitSlashAux cs (c :: acc)

/-- The normal components of a path (empty segments and `.` discarded). -/
def pathComponents (p : String) : List String :=
  (splitSlashAux p.data []).filter (fun s => !(s == "" || s == "."))

/-- The model of Rust `Path::file_name`: the final normal component,
`none` when there is none or when the path ends in `..`. -/
def fileName (p : String) : Option String :=
  match (pathComponents p).getLast? with
  | some s => if s = ".." then none else some s
  | none => none

/-! ### Data model -/

/-- The filesystem snapshot seen by the resolver: which paths exist as
regular files and which as directories. -/
structure FS where
  files : List String
  dirs : List String
deriving DecidableEq, Repr

def fsExists (fs : FS) (p : String) : Bool :=
  fs.files.contains p || fs.dirs.contains p

def fsIsFile (fs : FS) (p : String) : Bool := fs.files.contains p

/-- A target file: its full textual content and its modification time. -/
structure FileSt where
  content : String
  mtime : Nat
deriving DecidableEq, Repr

/-- `fs::write`: replacing the content also bumps the modification time. -/
def fsWrite (_st : FileSt) (c : String) (now : Nat) : FileSt := ⟨c, now⟩

/-- `filetime::set_file_mtime`. -/
def setMtime (st : FileSt) (t : Nat) : FileSt := ⟨st.content, t⟩

/-- The errors raised by the core (the `bail!` sites of `main.rs`).
`invalidSUsage`/`invalidEnvUsage` are the two shapes of the spec's
`InvalidShebangError`, `unsupportedEnvUsage` is `UnsupportedShebangError`,
`notFound` is `NotFoundError`. -/
inductive Err where
  | notFound (program : String)
  | invalidSUsage (line : String)
  | invalidEnvUsage (line : String)
  | unsupportedEnvUsage (line : String)
deriving DecidableEq, Repr

/-- The spec's `InvalidShebangError` classification of the model errors. -/
def Err.isInvalidShebang : Err → Bool
  | .invalidSUsage _ => true
  | .invalidEnvUsage _ => true
  | _ => false

/-! ### The interpreter resolver: `which_in_path` -/

/-- The model of `which_in_path`: walk the search-path entries in order,
return the first candidate `dir.join(program)` that exists and is a
regular file. -/
def which_in_path (fs : FS) (program : String) (sp : List String) :
    Except Err String :=
  match sp with
  | [] => .error (.notFound program)
  | dir :: rest =>
    let full_path := rustJoin dir program
    if fsExists fs full_path && fsIsFile fs full_path then .ok full_path
    else which_in_path fs program rest

/-! ### The shebang rewriter: `process_file` -/

/-- Construction of the replacement shebang line from the parsed
interpreter token and argument list (the branch of `process_file` that
computes `new_interpreter_line`). -/
def buildNewLine (fs : FS) (sp : List String)
    (original_shebang interpreter : String) (args : List String) :
    Except Err String :=
  if strEndsWith interpreter "/env" then
    match args with
    | [] => .error (.invalidEnvUsage original_shebang)
    | first_arg :: restArgs =>
      if first_arg = "-S" then
        match restArgs with
        | [] => .error (.invalidSUsage original_shebang)
        | prog :: after =>
          match which_in_path fs prog sp with
          | .error e => .error e
          | .ok prog_path =>
            match which_in_path fs "env" sp with
            | .error e => .error e
            | .ok env_path =>
              .ok ("#!" ++ env_path ++ " -S " ++ prog_path ++ " " ++
                joinSpace after)
      else if strStartsWith first_arg "-" || first_arg.data.contains '=' then
        .error (.unsupportedEnvUsage original_shebang)
      else
        match which_in_path fs first_arg sp with
        | .error e => .error e
        | .ok prog_path => .ok ("#!" ++ prog_path)
  else
    let base := (fileName interpreter).getD interpreter
    match which_in_path fs base sp with
    | .error e => .error e
    | .ok resolved => .ok ("#!" ++ joinSpace (resolved :: args))

/-- The whitespace-split words of a shebang line after stripping the `#!`
marker and trimming, as `process_file` computes them. -/
def shebangParts (line : String) : List String :=
  splitWhitespace (strTrim (strDropShebangMarks line))

/-- The replacement line computed for a (right-trimmed) shebang line. -/
def computeNewLine (fs : FS) (sp : List String) (line : String) :
    Except Err String :=
  buildNewLine fs sp line ((shebangParts line).headD "")
    ((shebangParts line).tail)

/-- The model of `process_file`: read the first line, stop silently when it
is no shebang, compute the replacement line, and perform the guarded
in-place rewrite, restoring the captured modification time.  `now` is the
modification time `fs::write` would stamp before it is restored. -/
def process_file (fs : FS) (st : FileSt) (sp : List String)
    (update : Bool) (now : Nat) : Except Err (Option String × FileSt) :=
  let first_line := firstLine st.content
  if first_line = "" ∨ strStartsWith first_line "#!" = false then
    .ok (none, st)
  else
    let original_shebang := strTrimRight first_line
    let interpreter := (shebangParts original_shebang).headD ""
    match computeNewLine fs sp original_shebang with
    | .error e => .error e
    | .ok new_interpreter_line =>
      if original_shebang = new_interpreter_line then
        .ok (none, st)
      else if update = true ∨ strStartsWith interpreter "/nix/store" = false then
        .ok (some new_interpreter_line,
          setMtime
            (fsWrite st (replacen1 st.content original_shebang
              new_interpreter_line) now)
            st.mtime)
      else
        .ok (none, st)

/-! ### The traversal filter of `patch_shebangs_in_path` -/

/-- A filesystem entry as the traversal sees it: whether it is a regular
file, and its permission mode bits. -/
structure FsEntry where
  isFile : Bool
  mode : Nat
deriving DecidableEq, Repr

/-- The skip condition of `patch_shebangs_in_path` (line 49 of the source):
not a regular file, or owner-execute bit `0o100` clear. -/
def skipsEntry (e : FsEntry) : Bool :=
  !e.isFile || (e.mode &&& 64 == 0)

/-- Whether any of the three execute permission bits `0o111` is set. -/
def anyExecBit (e : FsEntry) : Bool := !(e.mode &&& 73 == 0)

/-! ### A concrete filesystem used by witnesses and counterexamples -/

/-- A small filesystem: `/bin` holds `env`, `bash` and `perl`. -/
def fsW : FS := ⟨["/bin/env", "/bin/bash", "/bin/perl"], ["/bin"]⟩

/-! ## Supporting lemmas -/

theorem isPrefixOf_iff_exists (a l : List Char) :
    a.isPrefixOf l = true ↔ ∃ t, l = a ++ t := by
  induction a generalizing l with
  | nil => simp [List.isPrefixOf]
  | cons x xs ih =>
    cases l with
    | nil => simp [List.isPrefixOf]
    | cons y ys =>
      simp only [List.isPrefixOf, Bool.and_eq_true, beq_iff_eq, ih,
        List.cons_append, List.cons.injEq]
      constructor
      · rintro ⟨rfl, t, rfl⟩; exact ⟨t, rfl, rfl⟩
      · rintro ⟨t, rfl, rfl⟩; exact ⟨rfl, t, rfl⟩

theorem isPrefixOf_append_self (a b : List Char) :
    a.isPrefixOf (a ++ b) = true :=
  (isPrefixOf_iff_exists a (a ++ b)).mpr ⟨b, rfl⟩

theorem listTakeLine_append_dropLine (l : List Char) :
    listTakeLine l ++ listDropLine l = l := by
  induction l with
  | nil => rfl
  | cons c cs ih =>
    by_cases h : c = '\n'
    · simp [listTakeLine, listDropLine, h]
    · simp [listTakeLine, listDropLine, h, ih]

theorem mem_of_mem_listTakeLine {a : Char} {l : List Char}
    (h : a ∈ listTakeLine l) : a ∈ l := by
  induction l with
  | nil => simp [listTakeLine] at h
  | cons c cs ih =>
    by_cases hc : c = '\n'
    · simp [listTakeLine, hc] at h
      simp [h, hc]
    · simp [listTakeLine, hc] at h
      rcases h with h | h
      · simp [h]
      · exact List.mem_cons_of_mem _ (ih h)

theorem listTakeLine_append {a : List Char} (b : List Char)
    (h : '\n' ∉ a) : listTakeLine (a ++ b) = a ++ listTakeLine b := by
  induction a with
  | nil => rfl
  | cons c cs ih =>
    have hc : c ≠ '\n' := fun hc => h (by simp [hc])
    have hcs : '\n' ∉ cs := fun hm => h (List.mem_cons_of_mem _ hm)
    simp [listTakeLine, hc, ih hcs]

theorem listDropLine_eq_nil {l : List Char}
    (h : '\n' ∉ listTakeLine l) : listDropLine l = [] := by
  induction l with
  | nil => rfl
  | cons c cs ih =>
    by_cases hc : c = '\n'
    · exact absurd (by simp [listTakeLine, hc]) h
    · simp only [listTakeLine, if_neg hc] at h
      have : '\n' ∉ listTakeLine cs := fun hm => h (List.mem_cons_of_mem _ hm)
      simpa [listDropLine, hc] using ih this

theorem listTakeLine_newline {l : List Char}
    (h : '\n' ∈ listTakeLine l) :
    ∃ a, listTakeLine l = a ++ ['\n'] ∧ '\n' ∉ a := by
  induction l with
  | nil => simp [listTakeLine] at h
  | cons c cs ih =>
    by_cases hc : c = '\n'
    · exact ⟨[], by simp [listTakeLine, hc]⟩
    · simp only [listTakeLine, if_neg hc] at h ⊢
      rw [List.mem_cons] at h
      rcases h with h | h
      · exact absurd h.symm hc
      · obtain ⟨a, ha, hna⟩ := ih h
        exact ⟨c :: a, by simp [ha], by simp [hna, Ne.symm hc]⟩

theorem dropWhile_append_of_all {p : Char → Bool} {u : List Char}
    (v : List Char) (h : ∀ c ∈ u, p c = true) :
    List.dropWhile p (u ++ v) = List.dropWhile p v := by
  induction u with
  | nil => rfl
  | cons c cs ih =>
    have hc : p c = true := h c (by simp)
    have hcs : ∀ c ∈ cs, p c = true := fun x hx => h x (by simp [hx])
    simp [List.dropWhile, hc, ih hcs]

theorem listTrimRight_append_ws {w : List Char} (a : List Char)
    (h : ∀ c ∈ w, c.isWhitespace = true) :
    listTrimRight (a ++ w) = listTrimRight a := by
  unfold listTrimRight
  rw [List.reverse_append,
    dropWhile_append_of_all a.reverse (fun c hc => h c (by simpa using hc))]

theorem listTrimRight_decomp (l : List Char) :
    ∃ w, l = listTrimRight l ++ w ∧ ∀ c ∈ w, c.isWhitespace = true := by
  refine ⟨(l.reverse.takeWhile Char.isWhitespace).reverse, ?_, ?_⟩
  · calc l = l.reverse.reverse := (l.reverse_reverse).symm
    _ = (l.reverse.takeWhile Char.isWhitespace ++
          l.reverse.dropWhile Char.isWhitespace).reverse := by
        rw [List.takeWhile_append_dropWhile]
    _ = listTrimRight l ++ (l.reverse.takeWhile Char.isWhitespace).reverse := by
        rw [List.reverse_append]; rfl
  · intro c hc
    exact List.mem_takeWhile_imp (by simpa using hc)

theorem listTakeLine_ws_of_newline {u : List Char} (v : List Char)
    (h1 : ∀ c ∈ u, c.isWhitespace = true) (h2 : '\n' ∈ u) :
    ∀ c ∈ listTakeLine (u ++ v), c.isWhitespace = true := by
  induction u with
  | nil => simp at h2
  | cons d u' ih =>
    intro c hc
    by_cases hd : d = '\n'
    · simp only [List.cons_append, listTakeLine, if_pos hd] at hc
      rw [List.mem_singleton] at hc
      subst hc; subst hd; rfl
    · simp only [List.cons_append, listTakeLine, if_neg hd] at hc
      rw [List.mem_cons] at hc
      rcases hc with rfl | hc
      · exact h1 c (by simp)
      · have h2' : '\n' ∈ u' := by
          rcases List.mem_cons.mp h2 with h | h
          · exact absurd h.symm hd
          · exact h
        exact ih (fun x hx => h1 x (List.mem_cons_of_mem _ hx)) h2' c hc

theorem newline_not_mem_listTrimRight_takeLine (l : List Char) :
    '\n' ∉ listTrimRight (listTakeLine l) := by
  intro hmem
  obtain ⟨w1, hw1, _⟩ := listTrimRight_decomp (listTakeLine l)
  have hTL : '\n' ∈ listTakeLine l := by
    rw [hw1]; exact List.mem_append_left _ hmem
  obtain ⟨a, ha, hna⟩ := listTakeLine_newline hTL
  have h1 : listTrimRight (listTakeLine l) = listTrimRight a := by
    rw [ha]
    exact listTrimRight_append_ws a (by intro c hc; rw [List.mem_singleton] at hc; subst hc; rfl)
  obtain ⟨w2, hw2, _⟩ := listTrimRight_decomp a
  rw [h1] at hmem
  exact hna (by rw [hw2]; exact List.mem_append_left _ hmem)

theorem trimRight_takeLine_rewrite {nl w rest : List Char}
    (hnl_nonl : '\n' ∉ nl)
    (hnl_trim : listTrimRight nl = nl)
    (hw : ∀ c ∈ w, c.isWhitespace = true)
    (hrest : rest = [] ∨ '\n' ∈ w) :
    listTrimRight (listTakeLine (nl ++ (w ++ rest))) = nl := by
  rw [listTakeLine_append (w ++ rest) hnl_nonl]
  have hws : ∀ c ∈ listTakeLine (w ++ rest), c.isWhitespace = true := by
    rcases hrest with rfl | hnw
    · intro c hc
      rw [List.append_nil] at hc
      exact hw c (mem_of_mem_listTakeLine hc)
    · exact listTakeLine_ws_of_newline rest hw hnw
  rw [listTrimRight_append_ws nl hws, hnl_trim]

theorem listReplaceFirst_append (a t sub : List Char) :
    listReplaceFirst (a ++ t) a sub = sub ++ t := by
  cases a with
  | nil =>
    cases t with
    | nil => simp [listReplaceFirst, List.isPrefixOf]
    | cons c cs => simp [listReplaceFirst, List.isPrefixOf]
  | cons x xs =>
    have hpre := isPrefixOf_append_self (x :: xs) t
    simp only [List.cons_append] at hpre
    simp [listReplaceFirst, hpre, List.drop_left]

theorem data_hashBang : ("#!" : String).data = ['#', '!'] := rfl

/-- Every file content splits as its right-trimmed first line, trailing
first-line whitespace, and the remaining lines; when lines remain, the
whitespace contains the newline. -/
theorem content_decomp (s : String) :
    ∃ w rest, s.data = (strTrimRight (firstLine s)).data ++ (w ++ rest) ∧
      (∀ c ∈ w, c.isWhitespace = true) ∧ (rest = [] ∨ '\n' ∈ w) := by
  obtain ⟨w, hw, hws⟩ := listTrimRight_decomp (listTakeLine s.data)
  refine ⟨w, listDropLine s.data, ?_, hws, ?_⟩
  · conv_lhs => rw [← listTakeLine_append_dropLine s.data, hw]
    show (listTrimRight (listTakeLine s.data) ++ w) ++ listDropLine s.data =
      listTrimRight (listTakeLine s.data) ++ (w ++ listDropLine s.data)
    rw [List.append_assoc]
  · by_cases hrest : listDropLine s.data = []
    · exact Or.inl hrest
    · right
      have hnl : '\n' ∈ listTakeLine s.data := by
        by_contra hn
        exact hrest (listDropLine_eq_nil hn)
      rw [hw] at hnl
      rcases List.mem_append.mp hnl with h | h
      · exact absurd h (newline_not_mem_listTrimRight_takeLine s.data)
      · exact h

/-- Every line `buildNewLine` constructs begins with the marker `#!`. -/
theorem buildNewLine_ok_data {fs : FS} {sp : List String}
    {orig interp s : String} {args : List String}
    (h : buildNewLine fs sp orig interp args = .ok s) :
    ∃ r, s.data = '#' :: '!' :: r := by
  simp only [buildNewLine] at h
  repeat' split at h
  all_goals first
    | exact Except.noConfusion h
    | (injection h with h'
       subst h'
       exact ⟨_, rfl⟩)

/-- Every line `computeNewLine` constructs begins with the marker `#!`. -/
theorem computeNewLine_ok_data {fs : FS} {sp : List String} {line s : String}
    (h : computeNewLine fs sp line = .ok s) :
    ∃ r, s.data = '#' :: '!' :: r :=
  buildNewLine_ok_data h

/-- Inversion of a successful rewrite: `process_file` returned `some`
exactly from the write branch, so the file was a shebang script, the line
computation succeeded with a different line, and the new state is the
substituted content carrying the original modification time. -/
theorem process_some_inv {fs : FS} {st : FileSt} {sp : List String}
    {update : Bool} {now : Nat} {nl : String} {st' : FileSt}
    (h : process_file fs st sp update now = .ok (some nl, st')) :
    firstLine st.content ≠ "" ∧
    strStartsWith (firstLine st.content) "#!" = true ∧
    computeNewLine fs sp (strTrimRight (firstLine st.content)) = .ok nl ∧
    strTrimRight (firstLine st.content) ≠ nl ∧
    st' = ⟨replacen1 st.content (strTrimRight (firstLine st.content)) nl,
      st.mtime⟩ := by
  simp only [process_file] at h
  split at h
  · simp at h
  · rename_i hguard
    push_neg at hguard
    obtain ⟨hg1, hg2⟩ := hguard
    split at h
    · simp at h
    · rename_i nl' hnl'
      split at h
      · simp at h
      · rename_i hne
        split at h
        · simp only [Except.ok.injEq, Prod.mk.injEq, Option.some.injEq] at h
          obtain ⟨h5, h6⟩ := h
          subst h5
          refine ⟨hg1, ?_, hnl', hne, h6.symm⟩
          cases hsw : strStartsWith (firstLine st.content) "#!"
          · exact absurd hsw hg2
          · rfl
        · simp at h

/-- The candidate test of `which_in_path` (`exists() && is_file()`)
collapses to regular-file membership. -/
theorem candidate_test (fs : FS) (p : String) :
    (fsExists fs p && fsIsFile fs p) = fsIsFile fs p := by
  unfold fsExists fsIsFile
  cases h : fs.files.contains p <;> simp [h]

theorem which_in_path_error_iff (fs : FS) (program : String)
    (sp : List String) :
    which_in_path fs program sp = .error (.notFound program) ↔
      ∀ d ∈ sp, fsIsFile fs (rustJoin d program) = false := by
  induction sp with
  | nil => simp [which_in_path]
  | cons d rest ih =>
    simp only [which_in_path, candidate_test]
    cases hc : fsIsFile fs (rustJoin d program)
    · simp [hc, ih]
    · simp [hc]

theorem which_in_path_ok {fs : FS} {program p : String} {sp : List String}
    (h : which_in_path fs program sp = .ok p) :
    fsIsFile fs p = true ∧
    ∃ pre d post, sp = pre ++ d :: post ∧ p = rustJoin d program ∧
      ∀ d' ∈ pre, fsIsFile fs (rustJoin d' program) = false := by
  induction sp with
  | nil => exact Except.noConfusion h
  | cons d rest ih =>
    simp only [which_in_path, candidate_test] at h
    cases hc : fsIsFile fs (rustJoin d program)
    · rw [hc] at h
      simp only [Bool.false_eq_true, if_false] at h
      obtain ⟨h1, pre, d', post, hsp, hp, hpre⟩ := ih h
      refine ⟨h1, d :: pre, d', post, by rw [hsp]; rfl, hp, ?_⟩
      intro x hx
      rcases List.mem_cons.mp hx with rfl | hx
      · exact hc
      · exact hpre x hx
    · rw [hc] at h
      simp only [if_true, Except.ok.injEq] at h
      subst h
      exact ⟨hc, [], d, rest, rfl, rfl, by simp⟩

/-- The frame of a successful rewrite: the content decomposes as the
original shebang plus a tail before the call, and as the new line plus
the very same tail after it; the modification time is unchanged. -/
theorem process_some_frame {fs : FS} {st : FileSt} {sp : List String}
    {update : Bool} {now : Nat} {nl : String} {st' : FileSt}
    (h : process_file fs st sp update now = .ok (some nl, st')) :
    ∃ tail,
      st.content.data = (strTrimRight (firstLine st.content)).data ++ tail ∧
      st'.content.data = nl.data ++ tail ∧ st'.mtime = st.mtime := by
  obtain ⟨-, -, -, -, hst'⟩ := process_some_inv h
  obtain ⟨w, rest, hdecomp, -, -⟩ := content_decomp st.content
  refine ⟨w ++ rest, hdecomp, ?_, by rw [hst']⟩
  rw [hst']
  show listReplaceFirst st.content.data
      (strTrimRight (firstLine st.content)).data nl.data =
    nl.data ++ (w ++ rest)
  rw [hdecomp, listReplaceFirst_append]

theorem rustJoin_absolute {prog : String} (d : String)
    (h : strStartsWith prog "/" = true) : rustJoin d prog = prog := by
  simp [rustJoin, h]

/-! ## Claims -/

/-- **C5.** Resolver contract: `which_in_path` iterates the search-path
entries in order, forms each candidate by joining the entry with the name,
and returns the first candidate that exists and is a regular file; it
fails with the not-found error exactly when no entry yields an existing
regular file (in particular when the search path is empty), and it never
returns a directory. -/
theorem C5_resolver_contract (fs : FS) (name : String) (sp : List String)
    (hwf : ∀ x ∈ fs.files, x ∉ fs.dirs) :
    (which_in_path fs name sp = .error (.notFound name) ↔
      ∀ d ∈ sp, fsIsFile fs (rustJoin d name) = false) ∧
    (∀ p, which_in_path fs name sp = .ok p →
      fsIsFile fs p = true ∧ p ∉ fs.dirs ∧
      ∃ pre d post, sp = pre ++ d :: post ∧ p = rustJoin d name ∧
        ∀ d' ∈ pre, fsIsFile fs (rustJoin d' name) = false) := by
  refine ⟨which_in_path_error_iff fs name sp, ?_⟩
  intro p hp
  obtain ⟨h1, hrest⟩ := which_in_path_ok hp
  have hmem : p ∈ fs.files := by
    unfold fsIsFile at h1
    simpa using h1
  exact ⟨h1, hwf p hmem, hrest⟩

/-- Witness for C5: in the concrete filesystem, `zsh` is found in no
search-path entry, so the resolver reports the not-found error. -/
theorem C5_witness :
    which_in_path fsW "zsh" ["/bin"] = .error (.notFound "zsh") :=
  ((C5_resolver_contract fsW "zsh" ["/bin"] (by decide)).1).mpr (by decide)

/-- **C10.** A program name that is itself an absolute path resolves to
itself whenever it exists as a regular file and the search path is
nonempty, whatever directories the search path contains, because joining
a directory with an absolute name yields the absolute name itself. -/
theorem C10_absolute_self_resolution (fs : FS) (name d : String)
    (rest : List String)
    (habs : strStartsWith name "/" = true)
    (hfile : fsIsFile fs name = true) :
    which_in_path fs name (d :: rest) = .ok name := by
  have hex : fsExists fs name = true := by
    unfold fsExists
    unfold fsIsFile at hfile
    simp only [Bool.or_eq_true]
    exact Or.inl hfile
  simp [which_in_path, rustJoin_absolute d habs, hex, hfile]

/-- Witness for C10: `/bin/bash` resolves to itself even through a search
path containing only an unrelated directory. -/
theorem C10_witness :
    which_in_path fsW "/bin/bash" ["/nonexistent"] = .ok "/bin/bash" :=
  C10_absolute_self_resolution fsW "/bin/bash" "/nonexistent" []
    (by decide) (by decide)

/-- **C8.** A file whose first line does not start with `#!` (including
an empty file) yields no result, no error, and an unchanged file state. -/
theorem C8_non_shebang_no_result (fs : FS) (st : FileSt) (sp : List String)
    (update : Bool) (now : Nat)
    (h : strStartsWith (firstLine st.content) "#!" = false) :
    process_file fs st sp update now = .ok (none, st) := by
  simp only [process_file]
  rw [if_pos (Or.inr h)]

/-- Witness for C8: an empty file and a plain text file are both left
untouched with no result. -/
theorem C8_witness :
    process_file fsW ⟨"", 0⟩ ["/bin"] false 0 = .ok (none, ⟨"", 0⟩) ∧
    process_file fsW ⟨"hello\n", 7⟩ ["/bin"] false 3 =
      .ok (none, ⟨"hello\n", 7⟩) :=
  ⟨C8_non_shebang_no_result fsW ⟨"", 0⟩ ["/bin"] false 0 (by decide),
   C8_non_shebang_no_result fsW ⟨"hello\n", 7⟩ ["/bin"] false 3 (by decide)⟩

/-- **C6.** Rewrite decision: when the replacement line equals the
original, no rewrite occurs and there is no result; otherwise the rewrite
occurs (returning the new line, substituting it into the content and
keeping the modification time) exactly when `update` is set or the
original interpreter token does not begin with `/nix/store`. -/
theorem C6_rewrite_decision (fs : FS) (st : FileSt) (sp : List String)
    (update : Bool) (now : Nat) (nl : String)
    (h1 : firstLine st.content ≠ "")
    (h2 : strStartsWith (firstLine st.content) "#!" = true)
    (h3 : computeNewLine fs sp (strTrimRight (firstLine st.content)) =
      .ok nl) :
    process_file fs st sp update now =
      .ok (if strTrimRight (firstLine st.content) ≠ nl ∧
            (update = true ∨
              strStartsWith
                ((shebangParts (strTrimRight (firstLine st.content))).headD
                  "") "/nix/store" = false)
          then (some nl,
            ⟨replacen1 st.content (strTrimRight (firstLine st.content)) nl,
              st.mtime⟩)
          else (none, st)) := by
  simp only [process_file]
  rw [if_neg (by push_neg; exact ⟨h1, by simp [h2]⟩)]
  simp only [h3]
  by_cases heq : strTrimRight (firstLine st.content) = nl
  · rw [if_pos heq, if_neg (by simp [heq])]
  · rw [if_neg heq]
    by_cases hgate : update = true ∨
        strStartsWith
          ((shebangParts (strTrimRight (firstLine st.content))).headD "")
          "/nix/store" = false
    · rw [if_pos hgate, if_pos ⟨heq, hgate⟩]
      rfl
    · rw [if_neg hgate, if_neg (by intro hcontra; exact hgate hcontra.2)]

/-- Witness for C6: a `/usr/bin/env bash` script is rewritten (the gate
passes because the interpreter is outside `/nix/store`). -/
theorem C6_witness :
    process_file fsW ⟨"#!/usr/bin/env bash\n", 4⟩ ["/bin"] false 9 =
      .ok (if strTrimRight (firstLine "#!/usr/bin/env bash\n") ≠
            "#!/bin/bash" ∧
            (false = true ∨
              strStartsWith
                ((shebangParts
                  (strTrimRight (firstLine "#!/usr/bin/env bash\n"))).headD
                  "") "/nix/store" = false)
          then (some "#!/bin/bash",
            ⟨replacen1 "#!/usr/bin/env bash\n"
              (strTrimRight (firstLine "#!/usr/bin/env bash\n"))
              "#!/bin/bash", 4⟩)
          else (none, ⟨"#!/usr/bin/env bash\n", 4⟩)) :=
  C6_rewrite_decision fsW ⟨"#!/usr/bin/env bash\n", 4⟩ ["/bin"] false 9
    "#!/bin/bash" (by decide) (by decide) rfl

/-- **C7.** Error classification for `env` shebangs: with `env` and no
argument at all the run fails with the invalid-usage error; with `-S` as
the sole argument it fails with the invalid `-S`-usage error; with a
first argument that is another flag (starts with `-`) or carries `=` it
fails with the unsupported-usage error.  Each error carries the offending
line, the first two are the spec's `InvalidShebangError`, and no rewrite
is performed (the call returns an error, not a new state). -/
theorem C7_env_error_classification (fs : FS) (st : FileSt)
    (sp : List String) (update : Bool) (now : Nat)
    (h1 : firstLine st.content ≠ "")
    (h2 : strStartsWith (firstLine st.content) "#!" = true)
    (henv : strEndsWith
      ((shebangParts (strTrimRight (firstLine st.content))).headD "")
      "/env" = true) :
    ((shebangParts (strTrimRight (firstLine st.content))).tail = [] →
      process_file fs st sp update now =
        .error (.invalidEnvUsage (strTrimRight (firstLine st.content)))) ∧
    ((shebangParts (strTrimRight (firstLine st.content))).tail = ["-S"] →
      process_file fs st sp update now =
        .error (.invalidSUsage (strTrimRight (firstLine st.content)))) ∧
    (∀ a rest2,
      (shebangParts (strTrimRight (firstLine st.content))).tail =
        a :: rest2 →
      a ≠ "-S" →
      (strStartsWith a "-" = true ∨ a.data.contains '=' = true) →
      process_file fs st sp update now =
        .error
          (.unsupportedEnvUsage (strTrimRight (firstLine st.content)))) ∧
    (Err.invalidSUsage
      (strTrimRight (firstLine st.content))).isInvalidShebang = true ∧
    (Err.invalidEnvUsage
      (strTrimRight (firstLine st.content))).isInvalidShebang = true := by
  have hguard : ¬(firstLine st.content = "" ∨
      strStartsWith (firstLine st.content) "#!" = false) := by
    push_neg
    exact ⟨h1, by simp [h2]⟩
  refine ⟨?_, ?_, ?_, rfl, rfl⟩
  · intro htail
    simp only [process_file]
    rw [if_neg hguard]
    simp only [computeNewLine, buildNewLine, henv, htail, if_true]
  · intro htail
    simp only [process_file]
    rw [if_neg hguard]
    simp only [computeNewLine, buildNewLine, henv, htail, if_true]
  · intro a rest2 htail hne hflag
    simp only [process_file]
    rw [if_neg hguard]
    simp only [computeNewLine, buildNewLine, henv, htail, if_true]
    rw [if_neg hne]
    rcases hflag with hf | hf
    · simp [hf]
    · have hmem : '=' ∈ a.data := by simpa using hf
      simp [hmem]

/-- Witness for C7: `#!/usr/bin/env -S` (nothing after `-S`) fails with
the invalid `-S`-usage error. -/
theorem C7_witness :
    process_file fsW ⟨"#!/usr/bin/env -S\n", 0⟩ ["/bin"] false 0 =
      .error (.invalidSUsage (strTrimRight (firstLine "#!/usr/bin/env -S\n"))) :=
  (C7_env_error_classification fsW ⟨"#!/usr/bin/env -S\n", 0⟩ ["/bin"]
    false 0 (by decide) (by decide) (by decide)).2.1 (by decide)

/-- **C1 (counterexample).** For `#!/usr/bin/env -S bash` (no remaining
arguments) the constructed line is `#!/bin/env -S /bin/bash ` with a
trailing space, not the claimed `#!/bin/env -S /bin/bash` with no
trailing characters. -/
theorem C1_counterexample :
    process_file fsW ⟨"#!/usr/bin/env -S bash\necho hi\n", 5⟩ ["/bin"]
        false 99 =
      .ok (some "#!/bin/env -S /bin/bash ",
        ⟨"#!/bin/env -S /bin/bash \necho hi\n", 5⟩) ∧
    "#!/bin/env -S /bin/bash " ≠ "#!/bin/env -S /bin/bash" :=
  ⟨rfl, by decide⟩

/-- **C1 (amended).** For an `env -S` shebang, the constructed line is
`#!` + resolved env + ` -S ` + resolved program + a single space + the
remaining arguments joined with single spaces in their original order; in
particular, with no remaining arguments the result carries exactly one
trailing space after the resolved program path. -/
theorem C1_env_dash_S_construction (fs : FS) (sp : List String)
    (L I prog P E : String) (rest : List String)
    (hparts : shebangParts L = I :: "-S" :: prog :: rest)
    (henv : strEndsWith I "/env" = true)
    (hp : which_in_path fs prog sp = .ok P)
    (he : which_in_path fs "env" sp = .ok E) :
    computeNewLine fs sp L =
      .ok ("#!" ++ E ++ " -S " ++ P ++ " " ++ joinSpace rest) := by
  simp only [computeNewLine, hparts, List.headD_cons, List.tail_cons,
    buildNewLine, henv, if_true, hp, he]

/-- Witness for C1: the spec's own example
`#!/usr/bin/env -S bash -euo pipefail` yields
`#!/bin/env -S /bin/bash -euo pipefail`. -/
theorem C1_witness :
    computeNewLine fsW ["/bin"] "#!/usr/bin/env -S bash -euo pipefail" =
      .ok ("#!" ++ "/bin/env" ++ " -S " ++ "/bin/bash" ++ " " ++
        joinSpace ["-euo", "pipefail"]) :=
  C1_env_dash_S_construction fsW ["/bin"]
    "#!/usr/bin/env -S bash -euo pipefail" "/usr/bin/env" "bash"
    "/bin/bash" "/bin/env" ["-euo", "pipefail"] rfl (by decide) rfl rfl

/-- **C2 (counterexample).** The bare token `#!env bash` does not take
the env-indirection branch: the code tests `ends_with("/env")`, the bare
interpreter `env` fails that test, and the direct branch keeps the
wrapper, producing `#!/bin/env bash` rather than the claimed
`#!/bin/bash`. -/
theorem C2_counterexample :
    process_file fsW ⟨"#!env bash\n", 0⟩ ["/bin"] false 0 =
      .ok (some "#!/bin/env bash", ⟨"#!/bin/env bash\n", 0⟩) ∧
    "#!/bin/env bash" ≠ "#!/bin/bash" :=
  ⟨rfl, by decide⟩

/-- **C2 (amended).** The env-indirection branch is taken iff the
interpreter token ends in the four characters `/env` (final segment `env`
preceded by a separator).  Any other interpreter — including the bare
token `env` — takes the direct branch, which resolves the final path
segment and produces `#!<resolved> <original-args...>` single-space
joined in original order; when the env branch is taken with a plain
program argument, the wrapper is dropped and `#!<resolved-program>` is
produced. -/
theorem C2_branch_selection (fs : FS) (sp : List String) (orig : String) :
    (∀ interp args, strEndsWith interp "/env" = false →
      buildNewLine fs sp orig interp args =
        match which_in_path fs ((fileName interp).getD interp) sp with
        | .error e => .error e
        | .ok resolved => .ok ("#!" ++ joinSpace (resolved :: args))) ∧
    (∀ args, buildNewLine fs sp orig "env" args =
        match which_in_path fs "env" sp with
        | .error e => .error e
        | .ok resolved => .ok ("#!" ++ joinSpace (resolved :: args))) ∧
    (∀ interp a rest2, strEndsWith interp "/env" = true → a ≠ "-S" →
      strStartsWith a "-" = false → a.data.contains '=' = false →
      buildNewLine fs sp orig interp (a :: rest2) =
        match which_in_path fs a sp with
        | .error e => .error e
        | .ok prog_path => .ok ("#!" ++ prog_path)) := by
  refine ⟨?_, ?_, ?_⟩
  · intro interp args h
    simp only [buildNewLine, h]
    simp
  · intro args
    have h : strEndsWith "env" "/env" = false := by decide
    simp only [buildNewLine, h]
    simp only [show (fileName "env").getD "env" = "env" from rfl]
    simp
  · intro interp a rest2 henv hne hdash heqc
    have hmem : '=' ∉ a.data := by simpa using heqc
    simp only [buildNewLine, henv, if_true]
    rw [if_neg hne, if_neg (by simp [hdash, hmem])]

/-- Witness for C2: bare `#!env bash` goes through the direct branch,
resolving basename `env` and keeping the argument. -/
theorem C2_witness :
    buildNewLine fsW ["/bin"] "#!env bash" "env" ["bash"] =
      match which_in_path fsW ((fileName "env").getD "env") ["/bin"] with
      | .error e => .error e
      | .ok resolved => .ok ("#!" ++ joinSpace (resolved :: ["bash"])) :=
  (C2_branch_selection fsW ["/bin"] "#!env bash").1 "env" ["bash"]
    (by decide)

/-- **C9 (counterexample).** An entry that is a regular file with mode
`0o011` (execute permission for group and other, none for the owner) has
an executable bit set for some principal, yet the traversal filter skips
it: the code tests only the owner bit `0o100`. -/
theorem C9_counterexample :
    skipsEntry ⟨true, 9⟩ = true ∧ (⟨true, 9⟩ : FsEntry).isFile = true ∧
      anyExecBit ⟨true, 9⟩ = true := by decide

/-- **C9 (amended).** The traversal filter invokes processing on an entry
iff it is a regular file with the owner-execute permission bit `0o100`
set; the group and other execute bits play no role. -/
theorem C9_traversal_filter (e : FsEntry) :
    skipsEntry e = false ↔ e.isFile = true ∧ e.mode &&& 64 ≠ 0 := by
  unfold skipsEntry
  cases hf : e.isFile <;> simp [hf]

/-- **C4.** Frame property of a rewrite: the content before the call
decomposes as the exact original shebang string plus a tail, the content
after the call is the new shebang string plus that very same tail (the
substitution hits the first literal occurrence, which sits at the start
of the file, and every other byte is unchanged), and the modification
time after the rewrite equals the one before. -/
theorem C4_frame_property {fs : FS} {st : FileSt} {sp : List String}
    {update : Bool} {now : Nat} {nl : String} {st' : FileSt}
    (h : process_file fs st sp update now = .ok (some nl, st')) :
    ∃ tail,
      st.content.data = (strTrimRight (firstLine st.content)).data ++ tail ∧
      st'.content.data = nl.data ++ tail ∧ st'.mtime = st.mtime :=
  process_some_frame h

/-- Witness for C4: rewriting `#!/some/path/perl -w` to `#!/bin/perl -w`
changes only the first line and keeps the modification time. -/
theorem C4_witness :
    ∃ tail,
      (FileSt.mk "#!/some/path/perl -w\nbody\n" 11).content.data =
        (strTrimRight (firstLine
          (FileSt.mk "#!/some/path/perl -w\nbody\n" 11).content)).data ++
          tail ∧
      (FileSt.mk "#!/bin/perl -w\nbody\n" 11).content.data =
        ("#!/bin/perl -w" : String).data ++ tail ∧
      (FileSt.mk "#!/bin/perl -w\nbody\n" 11).mtime =
        (FileSt.mk "#!/some/path/perl -w\nbody\n" 11).mtime :=
  C4_frame_property
    (rfl :
      process_file fsW ⟨"#!/some/path/perl -w\nbody\n", 11⟩ ["/bin"]
        false 42 =
      .ok (some "#!/bin/perl -w", ⟨"#!/bin/perl -w\nbody\n", 11⟩))

/-- **C3 (counterexample).** Idempotence fails: rewriting
`#!/usr/bin/env -S bash` produces a line with a trailing space; a second
invocation on the resulting file trims that space when reading the line,
recomputes the same space-carrying line, finds it different, and rewrites
again (accumulating one more space) instead of returning no result. -/
theorem C3_counterexample :
    process_file fsW ⟨"#!/usr/bin/env -S bash\n", 0⟩ ["/bin"] false 7 =
      .ok (some "#!/bin/env -S /bin/bash ",
        ⟨"#!/bin/env -S /bin/bash \n", 0⟩) ∧
    process_file fsW ⟨"#!/bin/env -S /bin/bash \n", 0⟩ ["/bin"] false 7 =
      .ok (some "#!/bin/env -S /bin/bash ",
        ⟨"#!/bin/env -S /bin/bash  \n", 0⟩) :=
  ⟨rfl, rfl⟩

/-- **C3 (amended).** Idempotence holds for every rewrite whose new line
is a fixpoint of the line computation: if `process_file` rewrote a file
to a line `nl` that contains no newline, carries no trailing whitespace,
and recomputes to itself under the same filesystem and search path, then
a second invocation with the same arguments returns no result and leaves
the file unchanged.  (The fixpoint hypothesis is exactly what fails in
the counterexample: the `-S`-with-no-remaining-arguments line ends in a
space, and a bare-`env` rewrite re-enters the env branch.) -/
theorem C3_idempotence {fs : FS} {st : FileSt} {sp : List String}
    {update : Bool} {now : Nat} {nl : String} {st' : FileSt}
    (h1 : process_file fs st sp update now = .ok (some nl, st'))
    (h2 : computeNewLine fs sp nl = .ok nl)
    (h3 : '\n' ∉ nl.data)
    (h4 : listTrimRight nl.data = nl.data) :
    process_file fs st' sp update now = .ok (none, st') := by
  obtain ⟨-, -, hcomp, -, hst'⟩ := process_some_inv h1
  obtain ⟨w, rest, hdecomp, hw, hrest⟩ := content_decomp st.content
  obtain ⟨r, hr⟩ := computeNewLine_ok_data hcomp
  have hc' : st'.content.data = nl.data ++ (w ++ rest) := by
    rw [hst']
    show listReplaceFirst st.content.data
        (strTrimRight (firstLine st.content)).data nl.data =
      nl.data ++ (w ++ rest)
    rw [hdecomp, listReplaceFirst_append]
  have hfl : (firstLine st'.content).data =
      nl.data ++ listTakeLine (w ++ rest) := by
    show listTakeLine st'.content.data = _
    rw [hc', listTakeLine_append (w ++ rest) h3]
  have htrimS : strTrimRight (firstLine st'.content) = nl := by
    apply String.ext
    show listTrimRight (firstLine st'.content).data = nl.data
    have h5 : (firstLine st'.content).data =
        listTakeLine (nl.data ++ (w ++ rest)) := by
      show listTakeLine st'.content.data = _
      rw [hc']
    rw [h5, trimRight_takeLine_rewrite h3 h4 hw hrest]
  have hne0 : firstLine st'.content ≠ "" := by
    intro hemp
    have hd : (firstLine st'.content).data = ([] : List Char) := by
      rw [hemp]
    rw [hfl, hr] at hd
    simp at hd
  have hsw : strStartsWith (firstLine st'.content) "#!" = true := by
    unfold strStartsWith
    rw [hfl, hr]
    show List.isPrefixOf ['#', '!'] (('#' :: '!' :: r) ++
      listTakeLine (w ++ rest)) = true
    exact (isPrefixOf_iff_exists _ _).mpr
      ⟨r ++ listTakeLine (w ++ rest), by simp⟩
  simp only [process_file]
  rw [if_neg (by push_neg; exact ⟨hne0, by simp [hsw]⟩)]
  rw [htrimS]
  simp only [h2]
  simp

/-- Witness for C3: the rewrite of `#!/usr/bin/env bash` to
`#!/bin/bash` is a fixpoint, so the second invocation returns no result
and leaves the file unchanged. -/
theorem C3_witness :
    process_file fsW ⟨"#!/bin/bash\ncode\n", 3⟩ ["/bin"] false 9 =
      .ok (none, ⟨"#!/bin/bash\ncode\n", 3⟩) :=
  C3_idempotence
    (rfl :
      process_file fsW ⟨"#!/usr/bin/env bash\ncode\n", 3⟩ ["/bin"] false 9 =
        .ok (some "#!/bin/bash", ⟨"#!/bin/bash\ncode\n", 3⟩))
    rfl (by decide) rfl

end PatchShebangs
